import Mathlib

/-!
Verification of the BMW sales-analysis pipeline (`bmw.py` and its near-duplicate
suite file) against its specification.

The core pipeline is embedded shallowly:

* the loader's numeric coercion (`pd.to_numeric(..., errors='coerce')`) becomes
  `to_numeric`, acting cell-wise on optional strings and returning `Except`;
* a loaded row becomes `Record` (missing values are `none`; the five numeric
  columns carry `Option ℚ`, the text columns `Option String`);
* the derived metrics `Price_per_KM`, `Vehicle_Age`, `Model_Segment` become
  `price_per_KM`, `vehicle_Age`, `categorize_model`, packaged by `enrich`;
* the five SQL summary queries of `run_sql_queries` become list programs over
  `List EnrichedRecord`: SQLite `GROUP BY` emits one group per distinct key in
  ascending key order (`NULL` first), `SUM`/`AVG` ignore `NULL` cells and give
  `NULL` on all-`NULL` input (`sqlSum`, `sqlAvg`), `COUNT(*)` is the group
  size, `ORDER BY` is SQLite's sorter — a stable insertion sort on the
  ordering terms over the `GROUP BY` emission order, except that rows tied on
  a `DESC` ordering term come out in the reverse of their emission order, so
  for the single-term `DESC` orderings the emission list is reversed before
  the stable sort — and `LIMIT 10` is `List.take 10`;
* the pandas `groupby('Year')['Engine_Size_L'].mean()` trend (which drops
  missing keys and sorts them ascending) becomes `engine_trend`.

All definitions are executable; the Batteries rational primitives are unsealed
so that concrete runs of the pipeline evaluate inside the kernel.
-/

attribute [local semireducible] Rat.add Rat.sub Rat.mul Rat.inv

set_option maxRecDepth 100000

set_option maxHeartbeats 1000000

/-! ### Orderings used by the SQL engine

SQLite compares text by bytes (`BINARY` collation) and sorts `NULL` before
every value; for a `DESC` term the order is reversed, so `NULL` comes last.
-/

/-- Byte-order (`BINARY` collation) comparison of two character lists. -/
def charListLe : List Char → List Char → Bool
  | [], _ => true
  | _ :: _, [] => false
  | a :: as, b :: bs => if a < b then true else if b < a then false else charListLe as bs

/-- Byte-order comparison of two strings. -/
def strLeB (a b : String) : Bool := charListLe a.data b.data

/-- SQLite ordering on a nullable text column, ascending: `NULL` first. -/
def optStrLeB : Option String → Option String → Bool
  | none, _ => true
  | some _, none => false
  | some a, some b => strLeB a b

/-- SQLite ordering on a nullable numeric column, ascending: `NULL` first. -/
def optRatLeB : Option ℚ → Option ℚ → Bool
  | none, _ => true
  | some _, none => false
  | some a, some b => decide (a ≤ b)

/-- SQLite ordering on a nullable numeric column, descending: `NULL` last. -/
def optRatDescB : Option ℚ → Option ℚ → Bool
  | _, none => true
  | none, some _ => false
  | some a, some b => decide (b ≤ a)

theorem charListLe_total : ∀ as bs, charListLe as bs = true ∨ charListLe bs as = true
  | [], _ => Or.inl rfl
  | _ :: _, [] => Or.inr rfl
  | a :: as, b :: bs => by
    by_cases hab : a < b
    · left
      simp [charListLe, hab]
    by_cases hba : b < a
    · right
      simp [charListLe, hba, asymm hba]
    · have := charListLe_total as bs
      simpa [charListLe, hab, hba] using this

theorem charListLe_trans :
    ∀ as bs cs, charListLe as bs = true → charListLe bs cs = true → charListLe as cs = true
  | [], _, _, _, _ => rfl
  | _ :: _, [], _, h, _ => by simp [charListLe] at h
  | _ :: _, _ :: _, [], _, h => by simp [charListLe] at h
  | a :: as, b :: bs, c :: cs, h1, h2 => by
    simp only [charListLe] at h1 h2 ⊢
    rcases lt_trichotomy a b with hab | hab | hab
    · rcases lt_trichotomy b c with hbc | hbc | hbc
      · simp [lt_trans hab hbc]
      · subst hbc
        simp [hab]
      · rw [if_neg (asymm hbc), if_pos hbc] at h2
        exact absurd h2 (by simp)
    · subst hab
      rw [if_neg (lt_irrefl a), if_neg (lt_irrefl a)] at h1
      rcases lt_trichotomy a c with hac | hac | hac
      · simp [hac]
      · subst hac
        rw [if_neg (lt_irrefl a), if_neg (lt_irrefl a)] at h2 ⊢
        exact charListLe_trans as bs cs h1 h2
      · rw [if_neg (asymm hac), if_pos hac] at h2
        exact absurd h2 (by simp)
    · rw [if_neg (asymm hab), if_pos hab] at h1
      exact absurd h1 (by simp)

theorem charListLe_antisymm :
    ∀ as bs, charListLe as bs = true → charListLe bs as = true → as = bs
  | [], [], _, _ => rfl
  | [], _ :: _, _, h => by simp [charListLe] at h
  | _ :: _, [], h, _ => by simp [charListLe] at h
  | a :: as, b :: bs, h1, h2 => by
    by_cases hab : a < b
    · simp [charListLe, hab, asymm hab] at h2
    by_cases hba : b < a
    · simp [charListLe, hba, asymm hba] at h1
    · have hab' : a = b := le_antisymm (le_of_not_lt hba) (le_of_not_lt hab)
      subst hab'
      simp only [charListLe, if_neg (lt_irrefl a)] at h1 h2
      exact congrArg (a :: ·) (charListLe_antisymm as bs h1 h2)

theorem strLeB_total (a b : String) : strLeB a b = true ∨ strLeB b a = true :=
  charListLe_total a.data b.data

theorem strLeB_trans {a b c : String} (h1 : strLeB a b = true) (h2 : strLeB b c = true) :
    strLeB a c = true :=
  charListLe_trans a.data b.data c.data h1 h2

theorem strLeB_antisymm {a b : String} (h1 : strLeB a b = true) (h2 : strLeB b a = true) :
    a = b := by
  cases a with
  | mk da =>
    cases b with
    | mk db => exact congrArg String.mk (charListLe_antisymm da db h1 h2)

theorem optStrLeB_total (a b : Option String) : optStrLeB a b = true ∨ optStrLeB b a = true := by
  cases a with
  | none => exact Or.inl rfl
  | some x =>
    cases b with
    | none => exact Or.inr rfl
    | some y => exact strLeB_total x y

theorem optStrLeB_trans :
    ∀ {a b c : Option String}, optStrLeB a b = true → optStrLeB b c = true →
      optStrLeB a c = true
  | none, _, _, _, _ => rfl
  | some _, none, _, h, _ => by simp [optStrLeB] at h
  | some _, some _, none, _, h => by simp [optStrLeB] at h
  | some _, some _, some _, h1, h2 => strLeB_trans h1 h2

theorem optStrLeB_antisymm :
    ∀ {a b : Option String}, optStrLeB a b = true → optStrLeB b a = true → a = b
  | none, none, _, _ => rfl
  | none, some _, _, h => by simp [optStrLeB] at h
  | some _, none, h, _ => by simp [optStrLeB] at h
  | some _, some _, h1, h2 => congrArg some (strLeB_antisymm h1 h2)

theorem optRatDescB_total (a b : Option ℚ) : optRatDescB a b = true ∨ optRatDescB b a = true := by
  cases a with
  | none => cases b with
    | none => exact Or.inl rfl
    | some y => exact Or.inr rfl
  | some x =>
    cases b with
    | none => exact Or.inl rfl
    | some y =>
      simpa [optRatDescB] using (le_total y x)

theorem optRatDescB_trans {a b c : Option ℚ} (h1 : optRatDescB a b = true)
    (h2 : optRatDescB b c = true) : optRatDescB a c = true := by
  cases c with
  | none => cases a <;> rfl
  | some z =>
    cases b with
    | none => simp [optRatDescB] at h2
    | some y =>
      cases a with
      | none => simp [optRatDescB] at h1
      | some x =>
        simp only [optRatDescB, decide_eq_true_eq] at h1 h2 ⊢
        exact le_trans h2 h1

theorem optRatDescB_antisymm_eq :
    ∀ {a b : Option ℚ}, optRatDescB a b = true → optRatDescB b a = true → a = b
  | none, none, _, _ => rfl
  | none, some _, h, _ => by simp [optRatDescB] at h
  | some _, none, _, h => by simp [optRatDescB] at h
  | some x, some y, h1, h2 => by
    simp only [optRatDescB, decide_eq_true_eq] at h1 h2
    exact congrArg some (le_antisymm h2 h1)

/-! ### Record Loader: numeric coercion (§4.1)

`pd.to_numeric(df[col], errors='coerce')` parses each cell of a declared
numeric column; an unparseable cell becomes the missing-value marker (`NaN`,
here `none`) instead of raising, while `errors='raise'` would abort the load.
`parseNumeric` models the accepted numeric literals (sign, digits, optional
fraction); the exact accepted grammar is irrelevant to the coercion contract,
only that parsing is partial.
-/

/-- Value of a decimal digit character, `none` on any other character. -/
def digitVal (c : Char) : Option ℕ :=
  if '0' ≤ c ∧ c ≤ '9' then some (c.toNat - '0'.toNat) else none

/-- Value of a digit string read left to right; `none` if any character is not
a digit (the empty list gives `some 0`; emptiness is checked by callers). -/
def digitsVal (cs : List Char) : Option ℕ :=
  cs.foldl
    (fun acc c =>
      match acc, digitVal c with
      | some n, some d => some (n * 10 + d)
      | _, _ => none)
    (some 0)

/-- Split a character list at the first decimal point, if any. -/
def splitDot : List Char → List Char × Option (List Char)
  | [] => ([], none)
  | c :: rest =>
    if c = '.' then ([], some rest)
    else
      let p := splitDot rest
      (c :: p.1, p.2)

/-- Parse an unsigned numeric literal: digits with an optional fractional part.
At least one digit must be present. -/
def parseUnsigned (cs : List Char) : Option ℚ :=
  match splitDot cs with
  | (ip, none) =>
    if ip.isEmpty then none else (digitsVal ip).map (fun n => (n : ℚ))
  | (ip, some fp) =>
    if ip.isEmpty ∧ fp.isEmpty then none
    else
      match digitsVal ip, digitsVal fp with
      | some i, some f => some ((i : ℚ) + (f : ℚ) / (10 : ℚ) ^ fp.length)
      | _, _ => none

/-- Parse a signed numeric literal; `none` when the text is not numeric. -/
def parseNumeric (s : String) : Option ℚ :=
  match s.data with
  | '-' :: rest => (parseUnsigned rest).map (fun q => -q)
  | '+' :: rest => parseUnsigned rest
  | cs => parseUnsigned cs

/-- Error policy of the numeric conversion: `raise` aborts on an unparseable
cell, `coerce` turns it into the missing-value marker. The loader uses
`coerce`. -/
inductive ErrMode where
  | raise : ErrMode
  | coerce : ErrMode
deriving DecidableEq

/-- One cell of `pd.to_numeric(col, errors=mode)`: an already-missing cell
stays missing; a parseable cell becomes its number; an unparseable cell
becomes missing under `coerce` and an error under `raise`. -/
def to_numeric (mode : ErrMode) (cell : Option String) : Except String (Option ℚ) :=
  match cell with
  | none => Except.ok none
  | some s =>
    match parseNumeric s with
    | some q => Except.ok (some q)
    | none =>
      match mode with
      | ErrMode.coerce => Except.ok none
      | ErrMode.raise => Except.error s

/-- A whole declared-numeric column under the loader's `errors='coerce'`
policy. -/
def coerceColumn (cells : List (Option String)) : Except String (List (Option ℚ)) :=
  cells.mapM (to_numeric ErrMode.coerce)

/-! ### Data model (§3)

One loaded row. Numeric columns (after coercion) are `Option ℚ`, text columns
`Option String`; `none` is the missing-value marker (`NaN` in the frame,
`NULL` in the database snapshot).
-/

structure Record where
  Model : Option String
  Year : Option ℚ
  Engine_Size_L : Option ℚ
  Mileage_KM : Option ℚ
  Price_USD : Option ℚ
  Sales_Volume : Option ℚ
  Fuel_Type : Option String
  Transmission : Option String
  Region : Option String
  Color : Option String
  Sales_Classification : Option String
deriving DecidableEq

/-- A row after the Metric Deriver ran: the original columns plus the three
derived ones. -/
structure EnrichedRecord extends Record where
  Price_per_KM : Option ℚ
  Vehicle_Age : Option ℚ
  Model_Segment : String
deriving DecidableEq

/-! ### Metric Deriver (§4.2), from
`df['Price_per_KM'] = df['Price_USD'] / (df['Mileage_KM'] + 1)`,
`df['Vehicle_Age'] = 2024 - df['Year']`,
`df['Model_Segment'] = df['Model'].apply(categorize_model)`.
-/

/-- Denominator of the price-per-distance ratio: `Mileage_KM + 1` (missing
mileage stays missing, as in pandas elementwise arithmetic). -/
def ppk_denominator (r : Record) : Option ℚ :=
  r.Mileage_KM.map (fun m => m + 1)

/-- `Price_USD / (Mileage_KM + 1)`, elementwise: missing operands give a
missing result. -/
def price_per_KM (r : Record) : Option ℚ :=
  match r.Price_USD, ppk_denominator r with
  | some p, some d => some (p / d)
  | _, _ => none

/-- `2024 - Year`, elementwise; the reference year 2024 is a constant of the
analysis. -/
def vehicle_Age (r : Record) : Option ℚ :=
  r.Year.map (fun y => 2024 - y)

/-- Does `s` start with the character `c`? (`str.startswith` with a one-character
prefix.) -/
def strStartsWith (s : String) (c : Char) : Bool :=
  match s.data with
  | [] => false
  | a :: _ => a = c

/-- `categorize_model` from the source: a missing model is `Other`; otherwise
the first match among the prefixes `X`, `i`, `M` decides, and everything else
is `Sedan`. -/
def categorize_model (model : Option String) : String :=
  match model with
  | none => "Other"
  | some m =>
    if strStartsWith m 'X' then "SUV"
    else if strStartsWith m 'i' then "i-Series"
    else if strStartsWith m 'M' then "M-Series"
    else "Sedan"

/-- The Metric Deriver: attach the three derived columns to a row. -/
def enrich (r : Record) : EnrichedRecord :=
  { r with
    Price_per_KM := price_per_KM r
    Vehicle_Age := vehicle_Age r
    Model_Segment := categorize_model r.Model }

/-- The Metric Deriver over the whole table. -/
def enrichTable (t : List Record) : List EnrichedRecord :=
  t.map enrich

example : categorize_model (some "X5") = "SUV" := by decide
example : categorize_model (some "i3") = "i-Series" := by decide
example : categorize_model (some "M3") = "M-Series" := by decide
example : categorize_model (some "320i") = "Sedan" := by decide
example : categorize_model (some "") = "Sedan" := by decide
example : categorize_model none = "Other" := by decide

/-! ### Aggregation Engine (§4.3), from `run_sql_queries`

SQLite semantics used throughout: `GROUP BY` emits one row per distinct key,
in ascending key order; `SUM`/`AVG` skip `NULL` cells and return `NULL` when
every cell of the group is `NULL`; `COUNT(*)` counts rows; `ORDER BY` is a
stable sort on the ordering terms; `LIMIT n` keeps the first `n` rows.
-/

/-- SQL `SUM` over a nullable column: `NULL` inputs are skipped; an all-`NULL`
(or empty) input gives `NULL`. -/
def sqlSum (vs : List (Option ℚ)) : Option ℚ :=
  match vs.filterMap id with
  | [] => none
  | xs => some xs.sum

/-- SQL `AVG` over a nullable column: `NULL` inputs are skipped from both the
numerator and the denominator; an all-`NULL` (or empty) input gives `NULL`. -/
def sqlAvg (vs : List (Option ℚ)) : Option ℚ :=
  match vs.filterMap id with
  | [] => none
  | xs => some (xs.sum / (xs.length : ℚ))

/-- Ascending key order on a nullable text column as a relation. -/
def optStrLe (a b : Option String) : Prop := optStrLeB a b = true

instance : DecidableRel optStrLe := fun a b => inferInstanceAs (Decidable (optStrLeB a b = true))

instance : IsTotal (Option String) optStrLe := ⟨optStrLeB_total⟩

instance : IsTrans (Option String) optStrLe := ⟨fun _ _ _ => optStrLeB_trans⟩

/-- Ascending key order on a nullable numeric column as a relation. -/
def optRatLe (a b : Option ℚ) : Prop := optRatLeB a b = true

instance : DecidableRel optRatLe := fun a b => inferInstanceAs (Decidable (optRatLeB a b = true))

/-- Ascending order on `(Region, Transmission)` key pairs: by region, then by
transmission within a region. -/
def pairStrLeB (a b : Option String × Option String) : Bool :=
  if a.1 = b.1 then optStrLeB a.2 b.2 else optStrLeB a.1 b.1

/-- Relation form of `pairStrLeB`. -/
def pairStrLe (a b : Option String × Option String) : Prop := pairStrLeB a b = true

instance : DecidableRel pairStrLe := fun a b => inferInstanceAs (Decidable (pairStrLeB a b = true))

/-- The distinct grouping keys of a table, in the order `GROUP BY` emits them
(ascending key order). -/
def groupKeys {α κ : Type} [DecidableEq κ] (le : κ → κ → Prop) [DecidableRel le]
    (key : α → κ) (t : List α) : List κ :=
  ((t.map key).dedup).insertionSort le

/-- The rows of a table belonging to the group of key `k`, in table order. -/
def groupOf {α κ : Type} [DecidableEq κ] (key : α → κ) (t : List α) (k : κ) : List α :=
  t.filter (fun a => decide (key a = k))

/-- One aggregate row per group: `GROUP BY key` followed by per-group
aggregation `mk`. -/
def aggRows {α κ ρ : Type} [DecidableEq κ] (le : κ → κ → Prop) [DecidableRel le]
    (key : α → κ) (mk : κ → List α → ρ) (t : List α) : List ρ :=
  (groupKeys le key t).map (fun k => mk k (groupOf key t k))

/-- Row of the `top_models` summary. -/
structure TopModelRow where
  Model : Option String
  Total_Sales : Option ℚ
  Avg_Price : Option ℚ
  Transaction_Count : ℕ
deriving DecidableEq

/-- Aggregates of one `top_models` group. -/
def mkTopModelRow (k : Option String) (g : List EnrichedRecord) : TopModelRow :=
  { Model := k
    Total_Sales := sqlSum (g.map (fun r => r.Sales_Volume))
    Avg_Price := sqlAvg (g.map (fun r => r.Price_USD))
    Transaction_Count := g.length }

/-- `ORDER BY Total_Sales DESC` on `top_models` rows. -/
def tmLe (a b : TopModelRow) : Prop := optRatDescB a.Total_Sales b.Total_Sales = true

instance : DecidableRel tmLe := fun a b => inferInstanceAs (Decidable (optRatDescB a.Total_Sales b.Total_Sales = true))

instance : IsTotal TopModelRow tmLe := ⟨fun a b => optRatDescB_total a.Total_Sales b.Total_Sales⟩

instance : IsTrans TopModelRow tmLe := ⟨fun _ _ _ => optRatDescB_trans⟩

/-- The `top_models` query before its `LIMIT 10`: group by `Model`, aggregate,
order by summed sales volume descending. SQLite's sorter emits rows tied on
the `DESC` ordering term in the reverse of the order they entered it, so the
`GROUP BY` emission list is reversed before the stable sort: sales-volume ties
come out in descending model order. -/
def top_models_all (t : List EnrichedRecord) : List TopModelRow :=
  ((aggRows optStrLe (fun r => r.Model) mkTopModelRow t).reverse).insertionSort tmLe

/-- The `top_models` summary table (`LIMIT 10`). -/
def top_models (t : List EnrichedRecord) : List TopModelRow :=
  (top_models_all t).take 10

/-- Row of the `regional_performance` summary. -/
structure RegionalRow where
  Region : Option String
  Total_Sales : Option ℚ
  Avg_Price : Option ℚ
  Avg_Engine : Option ℚ
  Transaction_Count : ℕ
  High_Sales_Count : ℕ
deriving DecidableEq

/-- Aggregates of one `regional_performance` group; `High_Sales_Count` is
`SUM(CASE WHEN Sales_Classification = 'High' THEN 1 ELSE 0 END)`. -/
def mkRegionalRow (k : Option String) (g : List EnrichedRecord) : RegionalRow :=
  { Region := k
    Total_Sales := sqlSum (g.map (fun r => r.Sales_Volume))
    Avg_Price := sqlAvg (g.map (fun r => r.Price_USD))
    Avg_Engine := sqlAvg (g.map (fun r => r.Engine_Size_L))
    Transaction_Count := g.length
    High_Sales_Count := (g.filter (fun r => decide (r.Sales_Classification = some "High"))).length }

/-- `ORDER BY Total_Sales DESC` on `regional_performance` rows. -/
def regLe (a b : RegionalRow) : Prop := optRatDescB a.Total_Sales b.Total_Sales = true

instance : DecidableRel regLe := fun a b => inferInstanceAs (Decidable (optRatDescB a.Total_Sales b.Total_Sales = true))

/-- The `regional_performance` summary table; as in `top_models_all`, the
emission list is reversed before the stable `DESC` sort. -/
def regional_performance (t : List EnrichedRecord) : List RegionalRow :=
  ((aggRows optStrLe (fun r => r.Region) mkRegionalRow t).reverse).insertionSort regLe

/-- Row of the `fuel_analysis` summary. -/
structure FuelRow where
  Fuel_Type : Option String
  Total_Sales : Option ℚ
  Avg_Price : Option ℚ
  Transaction_Count : ℕ
deriving DecidableEq

/-- Aggregates of one `fuel_analysis` group. -/
def mkFuelRow (k : Option String) (g : List EnrichedRecord) : FuelRow :=
  { Fuel_Type := k
    Total_Sales := sqlSum (g.map (fun r => r.Sales_Volume))
    Avg_Price := sqlAvg (g.map (fun r => r.Price_USD))
    Transaction_Count := g.length }

/-- `ORDER BY Total_Sales DESC` on `fuel_analysis` rows. -/
def fuelLe (a b : FuelRow) : Prop := optRatDescB a.Total_Sales b.Total_Sales = true

instance : DecidableRel fuelLe := fun a b => inferInstanceAs (Decidable (optRatDescB a.Total_Sales b.Total_Sales = true))

/-- The `fuel_analysis` summary table; as in `top_models_all`, the emission
list is reversed before the stable `DESC` sort. -/
def fuel_analysis (t : List EnrichedRecord) : List FuelRow :=
  ((aggRows optStrLe (fun r => r.Fuel_Type) mkFuelRow t).reverse).insertionSort fuelLe

/-- Row of the `yearly_trends` summary. -/
structure YearlyRow where
  Year : Option ℚ
  Total_Sales : Option ℚ
  Avg_Price : Option ℚ
  Avg_Mileage : Option ℚ
  Avg_Engine : Option ℚ
  Transaction_Count : ℕ
deriving DecidableEq

/-- Aggregates of one `yearly_trends` group. -/
def mkYearlyRow (k : Option ℚ) (g : List EnrichedRecord) : YearlyRow :=
  { Year := k
    Total_Sales := sqlSum (g.map (fun r => r.Sales_Volume))
    Avg_Price := sqlAvg (g.map (fun r => r.Price_USD))
    Avg_Mileage := sqlAvg (g.map (fun r => r.Mileage_KM))
    Avg_Engine := sqlAvg (g.map (fun r => r.Engine_Size_L))
    Transaction_Count := g.length }

/-- `ORDER BY Year` on `yearly_trends` rows. -/
def yearlyLe (a b : YearlyRow) : Prop := optRatLeB a.Year b.Year = true

instance : DecidableRel yearlyLe := fun a b => inferInstanceAs (Decidable (optRatLeB a.Year b.Year = true))

/-- The `yearly_trends` summary table. -/
def yearly_trends (t : List EnrichedRecord) : List YearlyRow :=
  (aggRows optRatLe (fun r => r.Year) mkYearlyRow t).insertionSort yearlyLe

/-- SQLite `ROUND(x, 2)`: round to 2 decimal places, halves away from zero on
the positive values that occur here. -/
def round2 (q : ℚ) : ℚ := (⌊q * 100 + 1 / 2⌋ : ℤ) / 100

/-- Row of the `transmission_by_region` summary. -/
structure TransRow where
  Region : Option String
  Transmission : Option String
  Count : ℕ
  Pct : ℚ
deriving DecidableEq

/-- Grouping key of `transmission_by_region`. -/
def transKey (r : EnrichedRecord) : Option String × Option String :=
  (r.Region, r.Transmission)

/-- `ORDER BY Region, Count DESC` on `transmission_by_region` rows. -/
def transRowLe (a b : TransRow) : Prop :=
  (if a.Region = b.Region then decide (b.Count ≤ a.Count) else optStrLeB a.Region b.Region) = true

instance : DecidableRel transRowLe := fun a b =>
  inferInstanceAs (Decidable ((if a.Region = b.Region then decide (b.Count ≤ a.Count) else optStrLeB a.Region b.Region) = true))

/-- The `(Region, Transmission)` group keys with their `COUNT(*)`, in group
order: the aggregate rows before the window percentage is attached. -/
def transCounts (t : List EnrichedRecord) : List ((Option String × Option String) × ℕ) :=
  (groupKeys pairStrLe transKey t).map (fun k => (k, (groupOf transKey t k).length))

/-- One `transmission_by_region` row: the group's key and count, and the
count's share of `SUM(COUNT(*)) OVER (PARTITION BY Region)` rounded to 2
decimals. -/
def mkTransRow (t : List EnrichedRecord) (kc : (Option String × Option String) × ℕ) :
    TransRow :=
  { Region := kc.1.1
    Transmission := kc.1.2
    Count := kc.2
    Pct := round2 (100 * (kc.2 : ℚ) /
      (((((transCounts t).filter (fun kc2 => decide (kc2.1.1 = kc.1.1))).map
        (fun kc2 => kc2.2)).sum : ℕ) : ℚ)) }

/-- The `transmission_by_region` summary table: group by `(Region,
Transmission)`, count, attach the within-region percentage, order by region
then count descending. -/
def transmission_by_region (t : List EnrichedRecord) : List TransRow :=
  ((transCounts t).map (mkTransRow t)).insertionSort transRowLe

/-! ### Statistical Analyzer: the engine-size trend (§4.4), from
`engine_trend = df.groupby('Year')['Engine_Size_L'].mean()` followed by
positional access `engine_trend.iloc[0]` and `engine_trend.iloc[-1]`.
Pandas `groupby` drops missing keys and sorts the remaining keys ascending;
`mean` skips missing values.
-/

/-- The per-year mean engine size, as the list pandas `groupby('Year').mean()`
produces: one `(year, mean)` pair per distinct non-missing year, years
ascending. -/
def engine_trend (t : List EnrichedRecord) : List (ℚ × Option ℚ) :=
  (((t.filterMap (fun r => r.Year)).dedup).insertionSort (fun a b : ℚ => a ≤ b)).map
    (fun y =>
      (y, sqlAvg ((t.filter (fun r => decide (r.Year = some y))).map
        (fun r => r.Engine_Size_L))))

/-! ### The core pipeline (§2): derivation followed by aggregation.

`Env` stands for everything outside the input table that a run could observe:
a clock reading and a run counter. The core of the source reads neither (the
wall clock appears only in the PDF sink's file name, outside the core), which
is what claim C10 asserts.
-/

/-- The observable environment of one run. -/
structure Env where
  wallClock : ℕ
  runIndex : ℕ
deriving DecidableEq

/-- Everything the core produces: the enriched table and the five summary
tables. -/
structure CoreOutputs where
  enriched : List EnrichedRecord
  top_models : List TopModelRow
  regional_performance : List RegionalRow
  fuel_analysis : List FuelRow
  yearly_trends : List YearlyRow
  transmission_by_region : List TransRow
deriving DecidableEq

/-- One run of the core pipeline on a loaded table. -/
def run_core_pipeline (_env : Env) (t : List Record) : CoreOutputs :=
  { enriched := enrichTable t
    top_models := top_models (enrichTable t)
    regional_performance := regional_performance (enrichTable t)
    fuel_analysis := fuel_analysis (enrichTable t)
    yearly_trends := yearly_trends (enrichTable t)
    transmission_by_region := transmission_by_region (enrichTable t) }

/-! ### General lemmas about the embedded SQL engine -/

theorem optRatDescB_refl (a : Option ℚ) : optRatDescB a a = true := by
  cases a with
  | none => rfl
  | some x => simp [optRatDescB]

/-- Every row of an aggregation is the aggregate of the group of one of the
table's keys. -/
theorem mem_aggRows {α κ ρ : Type} [DecidableEq κ] {le : κ → κ → Prop} [DecidableRel le]
    {key : α → κ} {mk : κ → List α → ρ} {t : List α} {row : ρ}
    (h : row ∈ aggRows le key mk t) :
    ∃ k, k ∈ t.map key ∧ row = mk k (groupOf key t k) := by
  unfold aggRows groupKeys at h
  rcases List.mem_map.mp h with ⟨k, hk, hrow⟩
  exact ⟨k, List.mem_dedup.mp ((List.mem_insertionSort le).mp hk), hrow.symm⟩

/-- Summing a function group by group, over a duplicate-free key list that
covers the table, is summing it over the table. -/
theorem sum_groupOf {α κ M : Type} [DecidableEq κ] [AddCommMonoid M]
    (key : α → κ) (f : α → M) :
    ∀ (ks : List κ) (t : List α), ks.Nodup → (∀ a ∈ t, key a ∈ ks) →
      (ks.map (fun k => ((groupOf key t k).map f).sum)).sum = (t.map f).sum := by
  intro ks
  induction ks with
  | nil =>
    intro t _ hcov
    have ht : t = [] := List.eq_nil_iff_forall_not_mem.mpr (fun a ha => by simpa using hcov a ha)
    subst ht
    rfl
  | cons k ks ih =>
    intro t hnd hcov
    rcases List.nodup_cons.mp hnd with ⟨hk_not, hnd2⟩
    have hsplit :
        ((groupOf key t k).map f).sum
            + ((t.filter (fun a => !(decide (key a = k)))).map f).sum
          = (t.map f).sum := by
      have hp := List.filter_append_perm (fun a => decide (key a = k)) t
      calc ((groupOf key t k).map f).sum
              + ((t.filter (fun a => !(decide (key a = k)))).map f).sum
          = (((t.filter (fun a => decide (key a = k)))
              ++ t.filter (fun a => !(decide (key a = k)))).map f).sum := by
            rw [List.map_append, List.sum_append]; rfl
        _ = (t.map f).sum := List.Perm.sum_eq (List.Perm.map f hp)
    have hgrp : ∀ k' ∈ ks,
        ((groupOf key (t.filter (fun a => !(decide (key a = k)))) k').map f).sum
          = ((groupOf key t k').map f).sum := by
      intro k' hk'
      have hne : k' ≠ k := fun hkk => hk_not (hkk ▸ hk')
      have hgg : groupOf key (t.filter (fun a => !(decide (key a = k)))) k'
          = groupOf key t k' := by
        unfold groupOf
        rw [List.filter_filter]
        refine List.filter_congr (fun a _ => ?_)
        by_cases hak : key a = k'
        · simp [hak, hne]
        · simp [hak]
      rw [hgg]
    have hcov2 : ∀ a ∈ t.filter (fun a => !(decide (key a = k))), key a ∈ ks := by
      intro a ha
      rcases List.mem_filter.mp ha with ⟨hat, hak⟩
      rcases List.mem_cons.mp (hcov a hat) with h | h
      · simp [h] at hak
      · exact h
    have hih := ih (t.filter (fun a => !(decide (key a = k)))) hnd2 hcov2
    have hmap : (ks.map (fun k' => ((groupOf key t k').map f).sum))
        = ks.map (fun k' =>
            ((groupOf key (t.filter (fun a => !(decide (key a = k)))) k').map f).sum) :=
      (List.map_congr_left (fun k' hk' => hgrp k' hk')).symm
    simp only [List.map_cons, List.sum_cons]
    rw [hmap, hih]
    exact hsplit

/-- The length of a list is the sum of one per element. -/
theorem length_eq_sum_ones {α : Type} (l : List α) : (l.map (fun _ => (1 : ℕ))).sum = l.length := by
  induction l with
  | nil => rfl
  | cons a l ih => simp [ih, Nat.add_comm]

/-- `sqlSum` written as a conditional on the non-missing values. -/
theorem sqlSum_eq (vs : List (Option ℚ)) :
    sqlSum vs = if vs.filterMap id = [] then none else some (vs.filterMap id).sum := by
  unfold sqlSum
  cases h : vs.filterMap id with
  | nil => simp
  | cons a l => simp

/-- `sqlAvg` written as a conditional on the non-missing values. -/
theorem sqlAvg_eq (vs : List (Option ℚ)) :
    sqlAvg vs = if vs.filterMap id = []
      then none
      else some ((vs.filterMap id).sum / ((vs.filterMap id).length : ℚ)) := by
  unfold sqlAvg
  cases h : vs.filterMap id with
  | nil => simp
  | cons a l => simp

/-- Reading a `SUM` with `NULL` as zero gives the sum of the non-missing
values. -/
theorem sqlSum_getD (vs : List (Option ℚ)) : (sqlSum vs).getD 0 = (vs.filterMap id).sum := by
  rw [sqlSum_eq]
  by_cases h : vs.filterMap id = []
  · simp [h]
  · simp [h]

/-- Dropping the missing values and summing is summing with missing read as
zero. -/
theorem filterMap_id_sum (vs : List (Option ℚ)) :
    (vs.filterMap id).sum = (vs.map (fun v => v.getD 0)).sum := by
  induction vs with
  | nil => rfl
  | cons v vs ih =>
    cases v with
    | none => simpa using ih
    | some x => simpa using congrArg (x + ·) ih

/-- Two distinct members of a list form a pair sublist in one of the two
orders. -/
theorem pair_sublist_total {α : Type} {a b : α} {l : List α} (ha : a ∈ l) (hb : b ∈ l)
    (hne : a ≠ b) : List.Sublist [a, b] l ∨ List.Sublist [b, a] l := by
  induction l with
  | nil => cases ha
  | cons x t ih =>
    rcases List.mem_cons.mp ha with rfl | ha'
    · have hb' : b ∈ t := by
        rcases List.mem_cons.mp hb with h | h
        · exact absurd h.symm hne
        · exact h
      exact Or.inl (List.cons_sublist_cons.mpr (List.singleton_sublist.mpr hb'))
    · rcases List.mem_cons.mp hb with rfl | hb'
      · exact Or.inr (List.cons_sublist_cons.mpr (List.singleton_sublist.mpr ha'))
      · rcases ih ha' hb' with h | h
        · exact Or.inl (h.cons x)
        · exact Or.inr (h.cons x)

/-- In a duplicate-free list, two elements cannot appear in both orders. -/
theorem pair_sublist_antisymm {α : Type} {a b : α} {l : List α} (hnd : l.Nodup)
    (hab : List.Sublist [a, b] l) (hba : List.Sublist [b, a] l) : a = b := by
  induction l with
  | nil => cases hab
  | cons x t ih =>
    cases hab with
    | cons _ h1 =>
      cases hba with
      | cons _ h2 => exact ih (List.nodup_cons.mp hnd).2 h1 h2
      | cons₂ _ h2 =>
        have hbmem : b ∈ t := h1.subset (by simp)
        exact absurd hbmem (List.nodup_cons.mp hnd).1
    | cons₂ _ h1 =>
      cases hba with
      | cons _ h2 =>
        have hamem : a ∈ t := h2.subset (by simp)
        exact absurd hamem (List.nodup_cons.mp hnd).1
      | cons₂ _ h2 => rfl

/-- Rounding to two decimals moves a value by at most `1/200`. -/
theorem round2_sub_le (q : ℚ) : |round2 q - q| ≤ 1 / 200 := by
  unfold round2
  rw [abs_sub_le_iff]
  constructor
  · have h := Int.floor_le (q * 100 + 1 / 2)
    rw [div_sub' _ _ _ (by norm_num : (100 : ℚ) ≠ 0)]
    rw [div_le_div_iff (by norm_num) (by norm_num : (0:ℚ) < 200)]
    linarith
  · have h := Int.lt_floor_add_one (q * 100 + 1 / 2)
    rw [sub_div' _ _ _ (by norm_num : (100 : ℚ) ≠ 0)]
    rw [div_le_div_iff (by norm_num) (by norm_num : (0:ℚ) < 200)]
    linarith

/-- Rounding each entry of a list to two decimals moves the sum by at most
`1/200` per entry. -/
theorem sum_round2_near (ps : List ℚ) :
    |(ps.map round2).sum - ps.sum| ≤ (ps.length : ℚ) * (1 / 200) := by
  induction ps with
  | nil => simp
  | cons p ps ih =>
    simp only [List.map_cons, List.sum_cons, List.length_cons]
    have h1 := round2_sub_le p
    calc |(round2 p + (ps.map round2).sum) - (p + ps.sum)|
        = |(round2 p - p) + ((ps.map round2).sum - ps.sum)| := by ring_nf
      _ ≤ |round2 p - p| + |(ps.map round2).sum - ps.sum| := abs_add _ _
      _ ≤ 1 / 200 + (ps.length : ℚ) * (1 / 200) := add_le_add h1 ih
      _ = ((ps.length : ℚ) + 1) * (1 / 200) := by ring
      _ = (((ps.length : ℕ) + 1 : ℕ) : ℚ) * (1 / 200) := by push_cast; ring

/-- In a list sorted ascending, every member is at most the last element. -/
theorem le_getLast_of_sorted :
    ∀ {l : List ℚ}, l.Sorted (fun a b : ℚ => a ≤ b) → ∀ (hne : l ≠ []) {a : ℚ}, a ∈ l →
      a ≤ l.getLast hne
  | [], _, hne, _, _ => absurd rfl hne
  | [x], _, _, a, ha => by
    simp only [List.mem_singleton] at ha
    subst ha
    exact le_refl _
  | x :: y :: t, hs, hne, a, ha => by
    have hne2 : y :: t ≠ [] := List.cons_ne_nil y t
    rw [List.getLast_cons hne2]
    rcases List.mem_cons.mp ha with rfl | ha'
    · have hle : a ≤ y := (List.sorted_cons.mp hs).1 y (by simp)
      exact le_trans hle (le_getLast_of_sorted (List.sorted_cons.mp hs).2 hne2 (by simp))
    · exact le_getLast_of_sorted (List.sorted_cons.mp hs).2 hne2 ha'

/-! ### Example rows used by concrete counterexamples and witnesses -/

/-- A row with every column missing; concrete rows below override fields. -/
def blankRecord : Record :=
  { Model := none
    Year := none
    Engine_Size_L := none
    Mileage_KM := none
    Price_USD := none
    Sales_Volume := none
    Fuel_Type := none
    Transmission := none
    Region := none
    Color := none
    Sales_Classification := none }

/-! ### Claim C1 -/

/-- The segment rule as claim C1 states it, with an empty model mapped to
`Other`; stated from the spec's words, for comparison with the code's
`categorize_model`. -/
def model_segment_claimed (model : Option String) : String :=
  match model with
  | none => "Other"
  | some m =>
    if m = "" then "Other"
    else if strStartsWith m 'X' then "SUV"
    else if strStartsWith m 'i' then "i-Series"
    else if strStartsWith m 'M' then "M-Series"
    else "Sedan"

/-- Claim C1, counterexample: the empty (but present) model string matches no
prefix and falls through to `Sedan`; the claimed rule maps it to `Other`. -/
theorem C1_counterexample :
    categorize_model (some "") = "Sedan" ∧ model_segment_claimed (some "") = "Other" ∧
      categorize_model (some "") ≠ model_segment_claimed (some "") := by
  refine ⟨by decide, by decide, by decide⟩

/-- Claim C1, amended: `categorize_model` is a pure function of the model with
first-match precedence X → SUV, i → i-Series, M → M-Series, default Sedan,
matching case-sensitively on the literal first character; a missing model maps
to `Other`, while an empty model string matches no prefix and maps to `Sedan`
(not `Other`). -/
theorem C1_model_segment_rule (mo : Option String) :
    (mo = none → categorize_model mo = "Other") ∧
    (∀ m, mo = some m →
      (strStartsWith m 'X' = true → categorize_model mo = "SUV") ∧
      (strStartsWith m 'X' = false → strStartsWith m 'i' = true →
        categorize_model mo = "i-Series") ∧
      (strStartsWith m 'X' = false → strStartsWith m 'i' = false →
        strStartsWith m 'M' = true → categorize_model mo = "M-Series") ∧
      (strStartsWith m 'X' = false → strStartsWith m 'i' = false →
        strStartsWith m 'M' = false → categorize_model mo = "Sedan")) := by
  constructor
  · intro h
    subst h
    rfl
  · intro m hm
    subst hm
    refine ⟨fun hX => ?_, fun hX hi => ?_, fun hX hi hM => ?_, fun hX hi hM => ?_⟩ <;>
      simp [categorize_model, hX]
    · simp [hi]
    · simp [hi, hM]
    · simp [hi, hM]

/-- Claim C1, concrete runs of the rule: the spec's example scenario plus the
case-sensitivity and missing/empty edge cases. -/
theorem C1_witness :
    categorize_model (some "X5") = "SUV" ∧
    categorize_model (some "i3") = "i-Series" ∧
    categorize_model (some "M3") = "M-Series" ∧
    categorize_model (some "320i") = "Sedan" ∧
    categorize_model (some "x5") = "Sedan" ∧
    categorize_model (some "I3") = "Sedan" ∧
    categorize_model none = "Other" ∧
    categorize_model (some "") = "Sedan" := by
  exact ⟨(C1_model_segment_rule (some "X5")).2 "X5" rfl |>.1 (by decide),
    ((C1_model_segment_rule (some "i3")).2 "i3" rfl).2.1 (by decide) (by decide),
    ((C1_model_segment_rule (some "M3")).2 "M3" rfl).2.2.1 (by decide) (by decide) (by decide),
    ((C1_model_segment_rule (some "320i")).2 "320i" rfl).2.2.2 (by decide) (by decide) (by decide),
    ((C1_model_segment_rule (some "x5")).2 "x5" rfl).2.2.2 (by decide) (by decide) (by decide),
    ((C1_model_segment_rule (some "I3")).2 "I3" rfl).2.2.2 (by decide) (by decide) (by decide),
    (C1_model_segment_rule none).1 rfl,
    ((C1_model_segment_rule (some "")).2 "" rfl).2.2.2 (by decide) (by decide) (by decide)⟩

/-! ### Claim C2 -/

/-- Claim C2's safety clause as stated: the divisor `Mileage_KM + 1` of the
price-per-distance ratio is nonzero on every record. -/
def ppk_never_divides_by_zero : Prop :=
  ∀ (r : Record) (m : ℚ), r.Mileage_KM = some m → m + 1 ≠ 0

/-- A record with distance `-1`: its ratio divisor is zero. -/
def ppkBadRecord : Record :=
  { blankRecord with Price_USD := some 100, Mileage_KM := some (-1) }

/-- Claim C2, counterexample: on a record whose (parsed, unconstrained)
distance is `-1`, the divisor `distance + 1` of `Price_per_KM` is zero, so the
computation is not division-by-zero-free on every record. -/
theorem C2_counterexample :
    ppkBadRecord.Mileage_KM = some (-1) ∧ ppk_denominator ppkBadRecord = some 0 ∧
      ¬ ppk_never_divides_by_zero := by
  refine ⟨rfl, by decide, fun h => ?_⟩
  exact h ppkBadRecord (-1) rfl (by norm_num)

/-- Claim C2, amended: on every record whose distance is non-negative (as an
odometer reading is), `Price_per_KM` equals price divided by `distance + 1`
exactly, and that divisor is nonzero — in particular at distance `0`. -/
theorem C2_price_per_KM (r : Record) (p m : ℚ) (hp : r.Price_USD = some p)
    (hm : r.Mileage_KM = some m) (hnn : 0 ≤ m) :
    ppk_denominator r = some (m + 1) ∧ m + 1 ≠ 0 ∧
      price_per_KM r = some (p / (m + 1)) := by
  refine ⟨by rw [ppk_denominator, hm]; rfl, by positivity, ?_⟩
  rw [price_per_KM, hp, ppk_denominator, hm]
  rfl

/-- Claim C2, witness: the spec's example row (price 30000, distance 0) has
ratio exactly `30000 / 1`. -/
theorem C2_witness :
    ppk_denominator { blankRecord with Price_USD := some 30000, Mileage_KM := some 0 }
        = some (0 + 1) ∧
      (0 : ℚ) + 1 ≠ 0 ∧
      price_per_KM { blankRecord with Price_USD := some 30000, Mileage_KM := some 0 }
        = some (30000 / (0 + 1)) :=
  C2_price_per_KM _ 30000 0 rfl rfl (by norm_num)

/-! ### Claim C3 -/

/-- Claim C3: coercing a declared-numeric column never aborts — it returns
exactly the cell-wise parses, and a cell that fails numeric conversion is
replaced by the missing-value marker. -/
theorem C3_coerce_not_fail (cells : List (Option String)) :
    coerceColumn cells = Except.ok (cells.map (fun c => c.bind parseNumeric)) ∧
    ∀ c ∈ cells, ∀ s, c = some s → parseNumeric s = none →
      to_numeric ErrMode.coerce c = Except.ok none := by
  have hcell : ∀ c, to_numeric ErrMode.coerce c = Except.ok (c.bind parseNumeric) := by
    intro c
    cases c with
    | none => rfl
    | some s => cases h : parseNumeric s <;> simp [to_numeric, h]
  constructor
  · induction cells with
    | nil => rfl
    | cons c cs ih =>
      rw [coerceColumn] at ih ⊢
      rw [List.mapM_cons, hcell, ih]
      rfl
  · intro c _ s hc hs
    subst hc
    rw [hcell]
    simp [hs]

/-- Claim C3, witness: a column with an unparseable cell, a parseable cell and
an already-missing cell loads without an error, coercing the bad cell to
missing. -/
theorem C3_witness :
    coerceColumn [some "abc", some "12.5", none, some "2020"]
      = Except.ok [none, some (125 / 10), none, some 2020] := by
  have h := (C3_coerce_not_fail [some "abc", some "12.5", none, some "2020"]).1
  rw [h]
  simp only [Except.ok.injEq]
  decide

/-! ### Claim C9 -/

/-- Claim C9: the Metric Deriver adds exactly the three derived columns —
every one of the eleven loaded columns keeps its value, none is dropped, and
the new columns hold exactly the derived metrics. -/
theorem C9_deriver_frame (r : Record) :
    (enrich r).toRecord = r ∧
    (enrich r).Model = r.Model ∧
    (enrich r).Year = r.Year ∧
    (enrich r).Engine_Size_L = r.Engine_Size_L ∧
    (enrich r).Mileage_KM = r.Mileage_KM ∧
    (enrich r).Price_USD = r.Price_USD ∧
    (enrich r).Sales_Volume = r.Sales_Volume ∧
    (enrich r).Fuel_Type = r.Fuel_Type ∧
    (enrich r).Transmission = r.Transmission ∧
    (enrich r).Region = r.Region ∧
    (enrich r).Color = r.Color ∧
    (enrich r).Sales_Classification = r.Sales_Classification ∧
    (enrich r).Price_per_KM = price_per_KM r ∧
    (enrich r).Vehicle_Age = vehicle_Age r ∧
    (enrich r).Model_Segment = categorize_model r.Model :=
  ⟨rfl, rfl, rfl, rfl, rfl, rfl, rfl, rfl, rfl, rfl, rfl, rfl, rfl, rfl, rfl⟩

/-! ### Claim C10 -/

/-- Claim C10: the core pipeline is a deterministic function of the loaded
table alone — two runs under any two environments (clock readings, run
counts) produce identical derived columns and identical summary tables. -/
theorem C10_core_deterministic (e1 e2 : Env) (t : List Record) :
    run_core_pipeline e1 t = run_core_pipeline e2 t := rfl

/-! ### Claim C5 -/

/-- Claim C5: over all model groups (before the top-10 truncation), the summed
sales volumes add up to the sales-volume total of the whole enriched table
(missing values contributing nothing on either side). -/
theorem C5_total_sales_conservation (t : List EnrichedRecord) :
    ((top_models_all t).map (fun row => row.Total_Sales.getD 0)).sum
      = ((t.map (fun r => r.Sales_Volume)).filterMap id).sum := by
  classical
  have h1 : ((top_models_all t).map (fun row => row.Total_Sales.getD 0)).sum
      = ((aggRows optStrLe (fun r => r.Model) mkTopModelRow t).map
          (fun row => row.Total_Sales.getD 0)).sum :=
    List.Perm.sum_eq (List.Perm.map _
      ((List.perm_insertionSort tmLe _).trans (List.reverse_perm _)))
  rw [h1]
  unfold aggRows
  rw [List.map_map]
  have h2 : ∀ k, ((fun row => row.Total_Sales.getD 0) ∘
        (fun k => mkTopModelRow k (groupOf (fun r => r.Model) t k))) k
      = ((groupOf (fun r => r.Model) t k).map (fun r => r.Sales_Volume.getD 0)).sum := by
    intro k
    show (sqlSum ((groupOf (fun r => r.Model) t k).map (fun r => r.Sales_Volume))).getD 0 = _
    rw [sqlSum_getD, filterMap_id_sum, List.map_map]
    rfl
  rw [List.map_congr_left (fun k _ => h2 k)]
  have h3 : (groupKeys optStrLe (fun r => r.Model) t).Nodup :=
    (List.perm_insertionSort optStrLe _).nodup_iff.mpr (List.nodup_dedup _)
  have h4 : ∀ r ∈ t, (fun r : EnrichedRecord => r.Model) r ∈
      groupKeys optStrLe (fun r => r.Model) t := by
    intro r hr
    unfold groupKeys
    rw [List.mem_insertionSort, List.mem_dedup]
    exact List.mem_map_of_mem _ hr
  rw [sum_groupOf (fun r : EnrichedRecord => r.Model)
    (fun r => r.Sales_Volume.getD 0) _ t h3 h4]
  rw [filterMap_id_sum, List.map_map]
  rfl

/-! ### Claim C7 -/

/-- Exclude-missing mean, as the spec words it: missing values leave both the
numerator and the denominator. -/
def mean_excluding_missing (vs : List (Option ℚ)) : Option ℚ :=
  if (vs.filterMap id).length = 0 then none
  else some ((vs.filterMap id).sum / ((vs.filterMap id).length : ℚ))

/-- Exclude-missing sum, as the spec words it for "missing counts as zero". -/
def sum_excluding_missing (vs : List (Option ℚ)) : ℚ := (vs.filterMap id).sum

/-- The embedded SQL `AVG` is exactly the exclude-missing mean. -/
theorem sqlAvg_spec (vs : List (Option ℚ)) : sqlAvg vs = mean_excluding_missing vs := by
  rw [sqlAvg_eq, mean_excluding_missing]
  by_cases h : vs.filterMap id = []
  · simp [h]
  · simp [h, List.length_eq_zero, if_neg h]

/-- The embedded SQL `SUM` on a group with at least one non-missing value. -/
theorem sqlSum_spec_pos {vs : List (Option ℚ)} (h : vs.filterMap id ≠ []) :
    sqlSum vs = some (sum_excluding_missing vs) := by
  rw [sqlSum_eq, if_neg h]
  rfl

/-- The embedded SQL `SUM` on an all-missing group is missing, not zero. -/
theorem sqlSum_spec_none {vs : List (Option ℚ)} (h : vs.filterMap id = []) :
    sqlSum vs = none := by
  rw [sqlSum_eq, if_pos h]

/-- Claim C7 as stated, at one table: every `top_models` summed sales volume
equals (non-missing treated as zero) the plain sum of its group's non-missing
values — in particular `some 0` on an all-missing group. -/
def C7_sum_as_zero_at (t : List EnrichedRecord) : Prop :=
  ∀ row ∈ top_models t,
    row.Total_Sales
      = some (sum_excluding_missing
          ((t.filter (fun r => decide (r.Model = row.Model))).map (fun r => r.Sales_Volume)))

/-- A one-row table whose single sales volume is missing. -/
def ex7 : List EnrichedRecord :=
  enrichTable [{ blankRecord with Model := some "X5" }]

/-- Claim C7, counterexample: on a group whose sales volumes are all missing,
the SQL `SUM` is missing (`NULL`), not zero, so "sum treats missing as zero"
fails. -/
theorem C7_counterexample : ¬ C7_sum_as_zero_at ex7 := by
  unfold C7_sum_as_zero_at
  decide

/-- Claim C7, amended: in the four summary tables with `SUM`/`AVG` aggregates,
every mean excludes missing values from numerator and denominator, and every
summed sales volume equals the sum of the group's non-missing values whenever
the group has one — an all-missing group gets a missing sum, not zero. The
conditional count of `regional_performance` counts the rows classified
`High`. -/
theorem C7_aggregate_missing_semantics (t : List EnrichedRecord) :
    (∀ row ∈ top_models t,
      row.Avg_Price = mean_excluding_missing
        ((t.filter (fun r => decide (r.Model = row.Model))).map (fun r => r.Price_USD)) ∧
      (((t.filter (fun r => decide (r.Model = row.Model))).map
          (fun r => r.Sales_Volume)).filterMap id ≠ [] →
        row.Total_Sales = some (sum_excluding_missing
          ((t.filter (fun r => decide (r.Model = row.Model))).map (fun r => r.Sales_Volume)))) ∧
      (((t.filter (fun r => decide (r.Model = row.Model))).map
          (fun r => r.Sales_Volume)).filterMap id = [] → row.Total_Sales = none)) ∧
    (∀ row ∈ regional_performance t,
      row.Avg_Price = mean_excluding_missing
        ((t.filter (fun r => decide (r.Region = row.Region))).map (fun r => r.Price_USD)) ∧
      row.Avg_Engine = mean_excluding_missing
        ((t.filter (fun r => decide (r.Region = row.Region))).map (fun r => r.Engine_Size_L)) ∧
      (((t.filter (fun r => decide (r.Region = row.Region))).map
          (fun r => r.Sales_Volume)).filterMap id ≠ [] →
        row.Total_Sales = some (sum_excluding_missing
          ((t.filter (fun r => decide (r.Region = row.Region))).map (fun r => r.Sales_Volume)))) ∧
      (((t.filter (fun r => decide (r.Region = row.Region))).map
          (fun r => r.Sales_Volume)).filterMap id = [] → row.Total_Sales = none) ∧
      row.High_Sales_Count = ((t.filter (fun r => decide (r.Region = row.Region))).filter
        (fun r => decide (r.Sales_Classification = some "High"))).length) ∧
    (∀ row ∈ fuel_analysis t,
      row.Avg_Price = mean_excluding_missing
        ((t.filter (fun r => decide (r.Fuel_Type = row.Fuel_Type))).map (fun r => r.Price_USD)) ∧
      (((t.filter (fun r => decide (r.Fuel_Type = row.Fuel_Type))).map
          (fun r => r.Sales_Volume)).filterMap id ≠ [] →
        row.Total_Sales = some (sum_excluding_missing
          ((t.filter (fun r => decide (r.Fuel_Type = row.Fuel_Type))).map
            (fun r => r.Sales_Volume)))) ∧
      (((t.filter (fun r => decide (r.Fuel_Type = row.Fuel_Type))).map
          (fun r => r.Sales_Volume)).filterMap id = [] → row.Total_Sales = none)) ∧
    (∀ row ∈ yearly_trends t,
      row.Avg_Price = mean_excluding_missing
        ((t.filter (fun r => decide (r.Year = row.Year))).map (fun r => r.Price_USD)) ∧
      row.Avg_Mileage = mean_excluding_missing
        ((t.filter (fun r => decide (r.Year = row.Year))).map (fun r => r.Mileage_KM)) ∧
      row.Avg_Engine = mean_excluding_missing
        ((t.filter (fun r => decide (r.Year = row.Year))).map (fun r => r.Engine_Size_L)) ∧
      (((t.filter (fun r => decide (r.Year = row.Year))).map
          (fun r => r.Sales_Volume)).filterMap id ≠ [] →
        row.Total_Sales = some (sum_excluding_missing
          ((t.filter (fun r => decide (r.Year = row.Year))).map (fun r => r.Sales_Volume)))) ∧
      (((t.filter (fun r => decide (r.Year = row.Year))).map
          (fun r => r.Sales_Volume)).filterMap id = [] → row.Total_Sales = none)) := by
  refine ⟨?_, ?_, ?_, ?_⟩
  · intro row hrow
    have hrow2 : row ∈ top_models_all t := List.mem_of_mem_take hrow
    have hrow3 := List.mem_reverse.mp ((List.mem_insertionSort tmLe).mp hrow2)
    rcases mem_aggRows hrow3 with ⟨k, _, rfl⟩
    exact ⟨sqlAvg_spec _, fun h => sqlSum_spec_pos h, fun h => sqlSum_spec_none h⟩
  · intro row hrow
    have hrow3 := List.mem_reverse.mp ((List.mem_insertionSort regLe).mp hrow)
    rcases mem_aggRows hrow3 with ⟨k, _, rfl⟩
    exact ⟨sqlAvg_spec _, sqlAvg_spec _, fun h => sqlSum_spec_pos h,
      fun h => sqlSum_spec_none h, rfl⟩
  · intro row hrow
    have hrow3 := List.mem_reverse.mp ((List.mem_insertionSort fuelLe).mp hrow)
    rcases mem_aggRows hrow3 with ⟨k, _, rfl⟩
    exact ⟨sqlAvg_spec _, fun h => sqlSum_spec_pos h, fun h => sqlSum_spec_none h⟩
  · intro row hrow
    have hrow3 := (List.mem_insertionSort yearlyLe).mp hrow
    rcases mem_aggRows hrow3 with ⟨k, _, rfl⟩
    exact ⟨sqlAvg_spec _, sqlAvg_spec _, sqlAvg_spec _, fun h => sqlSum_spec_pos h,
      fun h => sqlSum_spec_none h⟩

/-! ### Claim C8 -/

/-- Claim C8 as stated, at one table: a non-empty table has a first and a last
trend entry, these carry the least and the greatest year present, and each
carries that year's exclude-missing mean engine size. -/
def C8_claim_at (t : List EnrichedRecord) : Prop :=
  t ≠ [] → ∃ p1 p2 : ℚ × Option ℚ,
    (engine_trend t).head? = some p1 ∧ (engine_trend t).getLast? = some p2 ∧
    (∃ r ∈ t, r.Year = some p1.1) ∧ (∃ r ∈ t, r.Year = some p2.1) ∧
    (∀ r ∈ t, ∀ y, r.Year = some y → p1.1 ≤ y ∧ y ≤ p2.1) ∧
    p1.2 = sqlAvg ((t.filter (fun r => decide (r.Year = some p1.1))).map
      (fun r => r.Engine_Size_L)) ∧
    p2.2 = sqlAvg ((t.filter (fun r => decide (r.Year = some p2.1))).map
      (fun r => r.Engine_Size_L))

/-- Claim C8, counterexample: a non-empty table whose one year is missing has
an empty trend — pandas `groupby` drops the missing key — so the positional
first/last reads of the source fail and the claimed first/last entries do not
exist. -/
theorem C8_counterexample : ¬ C8_claim_at (enrichTable [blankRecord]) := by
  intro h
  rcases h (by decide) with ⟨p1, p2, h1, _⟩
  have hnone : (engine_trend (enrichTable [blankRecord])).head? = none := by decide
  rw [hnone] at h1
  exact Option.noConfusion h1

/-- Claim C8, amended: whenever at least one year is present (non-missing),
the trend's first and last entries exist and are the entries of the least and
the greatest year present in the data — pandas sorts the group keys ascending,
so positions 0 and -1 are the calendar extremes — each carrying that year's
exclude-missing mean engine size. A non-empty table alone does not suffice
(see the counterexample). -/
theorem C8_trend_first_last (t : List EnrichedRecord)
    (h : ∃ r ∈ t, r.Year ≠ none) :
    ∃ y1 m1 y2 m2,
      (engine_trend t).head? = some (y1, m1) ∧
      (engine_trend t).getLast? = some (y2, m2) ∧
      (∃ r ∈ t, r.Year = some y1) ∧ (∃ r ∈ t, r.Year = some y2) ∧
      (∀ r ∈ t, ∀ y, r.Year = some y → y1 ≤ y ∧ y ≤ y2) ∧
      m1 = sqlAvg ((t.filter (fun r => decide (r.Year = some y1))).map
        (fun r => r.Engine_Size_L)) ∧
      m2 = sqlAvg ((t.filter (fun r => decide (r.Year = some y2))).map
        (fun r => r.Engine_Size_L)) := by
  classical
  have hf : engine_trend t
      = (((t.filterMap (fun r => r.Year)).dedup).insertionSort (fun a b : ℚ => a ≤ b)).map
        (fun y => (y, sqlAvg ((t.filter (fun r => decide (r.Year = some y))).map
          (fun r => r.Engine_Size_L)))) := rfl
  rcases h with ⟨r0, hr0, hy0⟩
  rcases Option.ne_none_iff_exists'.mp hy0 with ⟨v0, hv0⟩
  have hv0m : v0 ∈ t.filterMap (fun r => r.Year) :=
    List.mem_filterMap.mpr ⟨r0, hr0, hv0⟩
  have hsmem : v0 ∈ ((t.filterMap (fun r => r.Year)).dedup).insertionSort
      (fun a b : ℚ => a ≤ b) := by
    rw [List.mem_insertionSort, List.mem_dedup]
    exact hv0m
  have hsne : ((t.filterMap (fun r => r.Year)).dedup).insertionSort
      (fun a b : ℚ => a ≤ b) ≠ [] := List.ne_nil_of_mem hsmem
  have hsorted : (((t.filterMap (fun r => r.Year)).dedup).insertionSort
      (fun a b : ℚ => a ≤ b)).Sorted (fun a b : ℚ => a ≤ b) :=
    List.sorted_insertionSort _ _
  have hmemiff : ∀ y : ℚ, y ∈ ((t.filterMap (fun r => r.Year)).dedup).insertionSort
      (fun a b : ℚ => a ≤ b) ↔ y ∈ t.filterMap (fun r => r.Year) := by
    intro y
    rw [List.mem_insertionSort, List.mem_dedup]
  rcases List.exists_cons_of_ne_nil hsne with ⟨y1, rest, hcons⟩
  refine ⟨y1,
    sqlAvg ((t.filter (fun r => decide (r.Year = some y1))).map (fun r => r.Engine_Size_L)),
    (((t.filterMap (fun r => r.Year)).dedup).insertionSort
      (fun a b : ℚ => a ≤ b)).getLast hsne,
    sqlAvg ((t.filter (fun r => decide (r.Year =
      some ((((t.filterMap (fun r => r.Year)).dedup).insertionSort
        (fun a b : ℚ => a ≤ b)).getLast hsne)))).map (fun r => r.Engine_Size_L)),
    ?_, ?_, ?_, ?_, ?_, rfl, rfl⟩
  · rw [hf, hcons]
    rfl
  · rw [hf, List.getLast?_map, List.getLast?_eq_getLast_of_ne_nil hsne]
    rfl
  · have : y1 ∈ t.filterMap (fun r => r.Year) := by
      rw [← hmemiff y1, hcons]
      simp
    rcases List.mem_filterMap.mp this with ⟨r, hr, hry⟩
    exact ⟨r, hr, hry⟩
  · have : (((t.filterMap (fun r => r.Year)).dedup).insertionSort
        (fun a b : ℚ => a ≤ b)).getLast hsne ∈ t.filterMap (fun r => r.Year) := by
      rw [← hmemiff]
      exact List.getLast_mem hsne
    rcases List.mem_filterMap.mp this with ⟨r, hr, hry⟩
    exact ⟨r, hr, hry⟩
  · intro r hr y hy
    have hym : y ∈ ((t.filterMap (fun r => r.Year)).dedup).insertionSort
        (fun a b : ℚ => a ≤ b) := (hmemiff y).mpr (List.mem_filterMap.mpr ⟨r, hr, hy⟩)
    constructor
    · rw [hcons] at hym hsorted
      rcases List.mem_cons.mp hym with rfl | hmem
      · exact le_refl y
      · exact (List.sorted_cons.mp hsorted).1 y hmem
    · exact le_getLast_of_sorted hsorted hsne hym

/-- Claim C8, witness table: two rows with years 2024 and 2010 in reversed
order. -/
def exC8 : List EnrichedRecord :=
  enrichTable
    [{ blankRecord with Year := some 2024, Engine_Size_L := some 3 },
     { blankRecord with Year := some 2010, Engine_Size_L := some 2 }]

/-- Claim C8, witness: on `exC8` the trend's first entry is the least year
2010 and its last entry the greatest year 2024, with their groups' mean engine
sizes. -/
theorem C8_witness :
    ∃ y1 m1 y2 m2,
      (engine_trend exC8).head? = some (y1, m1) ∧
      (engine_trend exC8).getLast? = some (y2, m2) ∧
      (∃ r ∈ exC8, r.Year = some y1) ∧ (∃ r ∈ exC8, r.Year = some y2) ∧
      (∀ r ∈ exC8, ∀ y, r.Year = some y → y1 ≤ y ∧ y ≤ y2) ∧
      m1 = sqlAvg ((exC8.filter (fun r => decide (r.Year = some y1))).map
        (fun r => r.Engine_Size_L)) ∧
      m2 = sqlAvg ((exC8.filter (fun r => decide (r.Year = some y2))).map
        (fun r => r.Engine_Size_L)) :=
  C8_trend_first_last exC8 (by decide)

example : (engine_trend exC8).head? = some (2010, some 2) := by decide

example : (engine_trend exC8).getLast? = some (2024, some 3) := by decide

/-! ### Claim C4 -/

/-- Tie order of `top_models`: the rows enter the `ORDER BY Total_Sales DESC`
sort in descending model order (SQLite's sorter reverses the ascending
`GROUP BY` emission for a `DESC` term), the sort is stable, and sales ties
therefore come out in strictly descending model order — not in input-row
order. -/
theorem top_models_all_tie_order (t : List EnrichedRecord) :
    (top_models_all t).Pairwise (fun a b => tmLe a b ∧
      (a.Total_Sales = b.Total_Sales → (optStrLe b.Model a.Model ∧ a.Model ≠ b.Model))) := by
  classical
  have hknd : (groupKeys optStrLe (fun r : EnrichedRecord => r.Model) t).Nodup :=
    (List.perm_insertionSort optStrLe _).nodup_iff.mpr (List.nodup_dedup _)
  have hksort : (groupKeys optStrLe (fun r : EnrichedRecord => r.Model) t).Sorted optStrLe :=
    List.sorted_insertionSort _ _
  have hkpair : (groupKeys optStrLe (fun r : EnrichedRecord => r.Model) t).Pairwise
      (fun k k' => optStrLe k k' ∧ k ≠ k') := List.Pairwise.and hksort hknd
  have hrows_pair_asc : (aggRows optStrLe (fun r => r.Model) mkTopModelRow t).Pairwise
      (fun a b => optStrLe a.Model b.Model ∧ a.Model ≠ b.Model) := by
    unfold aggRows
    rw [List.pairwise_map]
    exact List.Pairwise.imp (fun h => ⟨h.1, fun he => h.2 he⟩) hkpair
  have hrows_pair : ((aggRows optStrLe (fun r => r.Model) mkTopModelRow t).reverse).Pairwise
      (fun a b => optStrLe b.Model a.Model ∧ b.Model ≠ a.Model) :=
    List.pairwise_reverse.mpr hrows_pair_asc
  have hrows_nodup : ((aggRows optStrLe (fun r => r.Model) mkTopModelRow t).reverse).Nodup := by
    refine List.nodup_reverse.mpr ?_
    unfold aggRows
    refine List.Nodup.map_on ?_ hknd
    intro x _ y _ hxy
    exact congrArg TopModelRow.Model hxy
  have hsor : (top_models_all t).Pairwise tmLe := List.sorted_insertionSort tmLe _
  have hout_nodup : (top_models_all t).Nodup :=
    (List.perm_insertionSort tmLe _).nodup_iff.mpr hrows_nodup
  rw [List.pairwise_iff_forall_sublist]
  intro a b hab
  refine ⟨List.pairwise_iff_forall_sublist.mp hsor hab, fun hts => ?_⟩
  have hne : a ≠ b := List.pairwise_iff_forall_sublist.mp hout_nodup hab
  have hamem : a ∈ (aggRows optStrLe (fun r => r.Model) mkTopModelRow t).reverse :=
    (List.mem_insertionSort tmLe).mp (hab.subset (by simp))
  have hbmem : b ∈ (aggRows optStrLe (fun r => r.Model) mkTopModelRow t).reverse :=
    (List.mem_insertionSort tmLe).mp (hab.subset (by simp))
  rcases pair_sublist_total hamem hbmem hne with hp | hp
  · have h := List.pairwise_iff_forall_sublist.mp hrows_pair hp
    exact ⟨h.1, h.2.symm⟩
  · have htm_ba : tmLe b a := by
      show optRatDescB b.Total_Sales a.Total_Sales = true
      rw [← hts]
      exact optRatDescB_refl _
    have hba_out : List.Sublist [b, a] (top_models_all t) :=
      List.pair_sublist_insertionSort htm_ba hp
    exact absurd (pair_sublist_antisymm hout_nodup hab hba_out) hne

/-- The two-row table of the C4 counterexample: models `A` then `B`, equal
summed sales. -/
def ex4 : List EnrichedRecord :=
  enrichTable
    [{ blankRecord with Model := some "A", Sales_Volume := some 5 },
     { blankRecord with Model := some "B", Sales_Volume := some 5 }]

/-- Claim C4, counterexample: on a table whose rows carry models `A` then `B`
with equal summed sales volume, the claimed input-order tie-break predicts the
output order `A, B`; the query yields `B, A` (SQLite's sorter emits rows tied
on the `DESC` ordering term in reverse emission order, i.e. descending model
order). -/
theorem C4_counterexample :
    ex4.map (fun r => r.Model) = [some "A", some "B"] ∧
    (top_models ex4).map (fun row => row.Total_Sales) = [some 5, some 5] ∧
    (top_models ex4).map (fun row => row.Model) = [some "B", some "A"] ∧
    ¬ (top_models ex4).map (fun row => row.Model) = [some "A", some "B"] := by
  decide

/-- Claim C4, amended: `top_models` groups rows by model (one output row per
distinct model, covering every model, before truncation), reports the group's
summed sales volume, mean price and row count, keeps at most 10 rows, and is
ordered by summed sales volume descending; ties in summed sales volume come
out in descending model order — the reverse of the group-emission order,
which is how SQLite's sorter emits `DESC` ties — not in input-row order. -/
theorem C4_top_models_shape (t : List EnrichedRecord) :
    (top_models t).length ≤ 10 ∧
    ((top_models_all t).map (fun row => row.Model)).Nodup ∧
    (∀ r ∈ t, ∃ row ∈ top_models_all t, row.Model = r.Model) ∧
    (∀ row ∈ top_models t,
      row.Total_Sales = sqlSum ((t.filter (fun r => decide (r.Model = row.Model))).map
        (fun r => r.Sales_Volume)) ∧
      row.Avg_Price = sqlAvg ((t.filter (fun r => decide (r.Model = row.Model))).map
        (fun r => r.Price_USD)) ∧
      row.Transaction_Count = (t.filter (fun r => decide (r.Model = row.Model))).length) ∧
    (top_models t).Pairwise (fun a b => tmLe a b ∧
      (a.Total_Sales = b.Total_Sales → (optStrLe b.Model a.Model ∧ a.Model ≠ b.Model))) := by
  classical
  have hknd : (groupKeys optStrLe (fun r : EnrichedRecord => r.Model) t).Nodup :=
    (List.perm_insertionSort optStrLe _).nodup_iff.mpr (List.nodup_dedup _)
  refine ⟨List.length_take_le 10 _, ?_, ?_, ?_, ?_⟩
  · have hperm : List.Perm ((top_models_all t).map (fun row => row.Model))
        ((aggRows optStrLe (fun r => r.Model) mkTopModelRow t).map (fun row => row.Model)) :=
      List.Perm.map _ ((List.perm_insertionSort tmLe _).trans (List.reverse_perm _))
    refine hperm.nodup_iff.mpr ?_
    have heq : (aggRows optStrLe (fun r => r.Model) mkTopModelRow t).map (fun row => row.Model)
        = groupKeys optStrLe (fun r : EnrichedRecord => r.Model) t := by
      unfold aggRows
      rw [List.map_map]
      exact List.map_id _
    rw [heq]
    exact hknd
  · intro r hr
    refine ⟨mkTopModelRow r.Model (groupOf (fun r => r.Model) t r.Model), ?_, rfl⟩
    rw [top_models_all, List.mem_insertionSort, List.mem_reverse]
    unfold aggRows
    refine List.mem_map_of_mem _ ?_
    unfold groupKeys
    rw [List.mem_insertionSort, List.mem_dedup]
    exact List.mem_map_of_mem _ hr
  · intro row hrow
    have hrow2 : row ∈ top_models_all t := List.mem_of_mem_take hrow
    have hrow3 := List.mem_reverse.mp ((List.mem_insertionSort tmLe).mp hrow2)
    rcases mem_aggRows hrow3 with ⟨k, _, rfl⟩
    exact ⟨rfl, rfl, rfl⟩
  · exact List.Pairwise.sublist (List.take_sublist 10 _) (top_models_all_tie_order t)

/-! ### Claim C6 -/

instance : IsTotal TransRow transRowLe :=
  ⟨fun a b => by
    unfold transRowLe
    by_cases h : a.Region = b.Region
    · rw [if_pos h, if_pos h.symm]
      rcases Nat.le_total a.Count b.Count with hc | hc
      · exact Or.inr (decide_eq_true hc)
      · exact Or.inl (decide_eq_true hc)
    · rw [if_neg h, if_neg (fun he => h he.symm)]
      exact optStrLeB_total _ _⟩

instance : IsTrans TransRow transRowLe :=
  ⟨fun a b c hab hbc => by
    unfold transRowLe at hab hbc ⊢
    by_cases h1 : a.Region = b.Region
    · by_cases h2 : b.Region = c.Region
      · rw [if_pos h1] at hab
        rw [if_pos h2] at hbc
        rw [if_pos (h1.trans h2)]
        exact decide_eq_true (Nat.le_trans (of_decide_eq_true hbc) (of_decide_eq_true hab))
      · rw [if_pos h1] at hab
        rw [if_neg h2] at hbc
        have h3 : a.Region ≠ c.Region := fun he => h2 (h1.symm.trans he)
        rw [if_neg h3, h1]
        exact hbc
    · by_cases h2 : b.Region = c.Region
      · have h3 : a.Region ≠ c.Region := fun he => h1 (he.trans h2.symm)
        rw [if_neg h1] at hab
        rw [if_neg h3, ← h2]
        exact hab
      · rw [if_neg h1] at hab
        rw [if_neg h2] at hbc
        by_cases h3 : a.Region = c.Region
        · exfalso
          rw [← h3] at hbc
          exact h1 (optStrLeB_antisymm hab hbc)
        · rw [if_neg h3]
          exact optStrLeB_trans hab hbc⟩

/-- Claim C6's tolerance clause as stated, at one table: every region's
percentages sum to 100 within 0.1. -/
def C6_pct_sum_within_tolerance_at (t : List EnrichedRecord) : Prop :=
  ∀ reg : Option String, (∃ row ∈ transmission_by_region t, row.Region = reg) →
    |(((transmission_by_region t).filter (fun row => decide (row.Region = reg))).map
        (fun row => row.Pct)).sum - 100| ≤ 1 / 10

/-- One region with 31 transmission values of one row each: each share is
100/31 ≈ 3.2258, rounded to 3.23, and the 31 roundings accumulate to 100.13. -/
def ex6 : List EnrichedRecord :=
  enrichTable ((List.range 31).map (fun i =>
    { blankRecord with Region := some "R", Transmission := some ("T" ++ toString i) }))

/-- Claim C6, counterexample: with 31 equal transmission groups in one region
the rounded percentages sum to 100.13, off by 0.13 > 0.1 — per-row rounding
errors of up to 0.005 accumulate with the number of groups, so no fixed 0.1
tolerance holds for every table. -/
theorem C6_counterexample : ¬ C6_pct_sum_within_tolerance_at ex6 := by
  intro h
  have hmem : ∃ row ∈ transmission_by_region ex6, row.Region = some "R" := by decide
  have hsum : (((transmission_by_region ex6).filter
      (fun row => decide (row.Region = some "R"))).map (fun row => row.Pct)).sum
      = 10013 / 100 := by decide
  have h2 := h (some "R") hmem
  rw [hsum] at h2
  have h3 : |(10013 : ℚ) / 100 - 100| = 13 / 100 := by
    rw [show (10013 : ℚ) / 100 - 100 = 13 / 100 by norm_num]
    exact abs_of_pos (by norm_num)
  rw [h3] at h2
  norm_num at h2

/-- Restricting a table to one region does not change that region's
`(Region, Transmission)` groups. -/
theorem groupOf_filter_region (t : List EnrichedRecord) (k : Option String × Option String) :
    groupOf transKey (t.filter (fun r => decide (r.Region = k.1))) k = groupOf transKey t k := by
  unfold groupOf
  rw [List.filter_filter]
  refine List.filter_congr (fun a _ => ?_)
  by_cases hak : transKey a = k
  · have hreg : a.Region = k.1 := congrArg Prod.fst hak
    simp [hak, hreg]
  · simp [hak]

/-- Each table row's `(Region, Transmission)` pair is one of the group keys. -/
theorem transKey_mem_groupKeys {t : List EnrichedRecord} {r : EnrichedRecord} (hr : r ∈ t) :
    transKey r ∈ groupKeys pairStrLe transKey t := by
  unfold groupKeys
  rw [List.mem_insertionSort, List.mem_dedup]
  exact List.mem_map_of_mem _ hr

/-- The `(Region, Transmission)` group keys are pairwise distinct. -/
theorem groupKeys_trans_nodup (t : List EnrichedRecord) :
    (groupKeys pairStrLe transKey t).Nodup :=
  (List.perm_insertionSort pairStrLe _).nodup_iff.mpr (List.nodup_dedup _)

/-- The window total `SUM(COUNT(*)) OVER (PARTITION BY Region)` is the number
of rows of that region. -/
theorem trans_window_total (t : List EnrichedRecord) (reg : Option String) :
    (((transCounts t).filter (fun kc => decide (kc.1.1 = reg))).map (fun kc => kc.2)).sum
      = (t.filter (fun r => decide (r.Region = reg))).length := by
  classical
  unfold transCounts
  rw [List.filter_map, List.map_map]
  rw [show ((fun kc : (Option String × Option String) × ℕ => decide (kc.1.1 = reg)) ∘
      (fun k => (k, (groupOf transKey t k).length)))
      = (fun k : Option String × Option String => decide (k.1 = reg)) from rfl]
  rw [show ((fun kc : (Option String × Option String) × ℕ => kc.2) ∘
      (fun k => (k, (groupOf transKey t k).length)))
      = (fun k : Option String × Option String => (groupOf transKey t k).length) from rfl]
  have hterm : ∀ k ∈ (groupKeys pairStrLe transKey t).filter
      (fun k => decide (k.1 = reg)),
      (groupOf transKey t k).length
        = ((groupOf transKey (t.filter (fun r => decide (r.Region = reg))) k).map
            (fun _ => (1 : ℕ))).sum := by
    intro k hk
    have hk1 : k.1 = reg := of_decide_eq_true (List.mem_filter.mp hk).2
    subst hk1
    rw [groupOf_filter_region t k, length_eq_sum_ones]
  rw [List.map_congr_left hterm]
  have hnd : ((groupKeys pairStrLe transKey t).filter
      (fun k => decide (k.1 = reg))).Nodup :=
    List.Nodup.filter _ (groupKeys_trans_nodup t)
  have hcov : ∀ a ∈ t.filter (fun r => decide (r.Region = reg)),
      transKey a ∈ (groupKeys pairStrLe transKey t).filter (fun k => decide (k.1 = reg)) := by
    intro a ha
    rcases List.mem_filter.mp ha with ⟨hat, har⟩
    exact List.mem_filter.mpr ⟨transKey_mem_groupKeys hat, har⟩
  rw [sum_groupOf transKey (fun _ => (1 : ℕ)) _ _ hnd hcov]
  exact length_eq_sum_ones _

/-- Every `transmission_by_region` row is built from one group key. -/
theorem mem_transmission_by_region {t : List EnrichedRecord} {row : TransRow}
    (h : row ∈ transmission_by_region t) :
    ∃ k, k ∈ groupKeys pairStrLe transKey t ∧
      row.Region = k.1 ∧ row.Transmission = k.2 ∧
      row.Count = (groupOf transKey t k).length ∧
      row.Pct = round2 (100 * ((groupOf transKey t k).length : ℚ) /
        (((((transCounts t).filter (fun kc2 => decide (kc2.1.1 = k.1))).map
          (fun kc2 => kc2.2)).sum : ℕ) : ℚ)) := by
  unfold transmission_by_region at h
  rw [List.mem_insertionSort] at h
  rcases List.mem_map.mp h with ⟨kc, hkc, hrow⟩
  unfold transCounts at hkc
  rcases List.mem_map.mp hkc with ⟨k, hk, hkc2⟩
  subst hkc2
  subst hrow
  exact ⟨k, hk, rfl, rfl, rfl, rfl⟩

/-- Rounding each of a list of shares `100 c / n` (with `Σ c = n ≠ 0`) to two
decimals leaves their sum within `1/200` per share of 100. -/
theorem round2_shares_sum_bound (cs : List ℕ) (n : ℕ) (hn : n ≠ 0) (hsum : cs.sum = n) :
    |(List.map (fun c : ℕ => round2 (100 * (c : ℚ) / (n : ℚ))) cs).sum - 100|
      ≤ (cs.length : ℚ) / 200 := by
  have hps : (List.map (fun c : ℕ => 100 * (c : ℚ) / (n : ℚ)) cs).sum = 100 := by
    have h1 : List.map (fun c : ℕ => 100 * (c : ℚ) / (n : ℚ)) cs
        = List.map (fun c : ℕ => (100 / (n : ℚ)) * (c : ℚ)) cs := by
      refine List.map_congr_left (fun c _ => ?_)
      ring
    rw [h1, List.sum_map_mul_left]
    have h2 : (List.map (fun c : ℕ => (c : ℚ)) cs).sum = ((cs.sum : ℕ) : ℚ) := by
      rw [Nat.cast_list_sum]
    rw [h2, hsum]
    exact div_mul_cancel₀ 100 (Nat.cast_ne_zero.mpr hn)
  have h3 : List.map (fun c : ℕ => round2 (100 * (c : ℚ) / (n : ℚ))) cs
      = (List.map (fun c : ℕ => 100 * (c : ℚ) / (n : ℚ)) cs).map round2 := by
    rw [List.map_map]
    rfl
  have hbound := sum_round2_near (List.map (fun c : ℕ => 100 * (c : ℚ) / (n : ℚ)) cs)
  rw [hps] at hbound
  rw [h3]
  refine le_trans hbound (le_of_eq ?_)
  rw [List.length_map]
  ring

/-- Claim C6, amended: `transmission_by_region` is ordered by region then
count descending; each row's count is its `(Region, Transmission)` group size
and its percentage is that count's share of the region's row count, rounded to
2 decimals; and each region's percentages sum to 100 within `1/200` per
transmission row of that region (so a fixed 0.1 tolerance holds exactly when
the region has at most 20 transmission rows, not in general). -/
theorem C6_transmission_shape (t : List EnrichedRecord) :
    (transmission_by_region t).Pairwise transRowLe ∧
    (∀ row ∈ transmission_by_region t,
      row.Count = (t.filter (fun r =>
        decide (r.Region = row.Region ∧ r.Transmission = row.Transmission))).length ∧
      row.Pct = round2 (100 * (row.Count : ℚ) /
        ((t.filter (fun r => decide (r.Region = row.Region))).length : ℚ))) ∧
    (∀ reg : Option String, (∃ r ∈ t, r.Region = reg) →
      |(((transmission_by_region t).filter (fun row => decide (row.Region = reg))).map
          (fun row => row.Pct)).sum - 100|
        ≤ (((transmission_by_region t).filter
            (fun row => decide (row.Region = reg))).length : ℚ) / 200) := by
  classical
  refine ⟨List.sorted_insertionSort transRowLe _, ?_, ?_⟩
  · intro row hrow
    rcases mem_transmission_by_region hrow with ⟨k, _, hR, hT, hC, hP⟩
    constructor
    · rw [hC, hR, hT]
      unfold groupOf
      refine congrArg List.length (List.filter_congr (fun a _ => ?_))
      refine decide_eq_decide.mpr ?_
      constructor
      · intro hpk
        exact ⟨congrArg Prod.fst hpk, congrArg Prod.snd hpk⟩
      · intro hpq
        exact Prod.ext_iff.mpr ⟨hpq.1, hpq.2⟩
    · rw [hP, hC, hR, trans_window_total t k.1]
  · intro reg hreg
    have hn_pos : 0 < (t.filter (fun r => decide (r.Region = reg))).length := by
      rcases hreg with ⟨r, hr, hrreg⟩
      exact List.length_pos.mpr
        (List.ne_nil_of_mem (List.mem_filter.mpr ⟨hr, decide_eq_true hrreg⟩))
    have hn : (t.filter (fun r => decide (r.Region = reg))).length ≠ 0 :=
      Nat.pos_iff_ne_zero.mp hn_pos
    have hperm : List.Perm
        ((transmission_by_region t).filter (fun row => decide (row.Region = reg)))
        (((transCounts t).map (mkTransRow t)).filter (fun row => decide (row.Region = reg))) :=
      List.Perm.filter _ (List.perm_insertionSort transRowLe _)
    have hfm : ((transCounts t).map (mkTransRow t)).filter
          (fun row => decide (row.Region = reg))
        = ((transCounts t).filter (fun kc => decide (kc.1.1 = reg))).map (mkTransRow t) := by
      rw [List.filter_map]
      rfl
    have hcf : (transCounts t).filter (fun kc => decide (kc.1.1 = reg))
        = ((groupKeys pairStrLe transKey t).filter (fun k => decide (k.1 = reg))).map
            (fun k => (k, (groupOf transKey t k).length)) := by
      unfold transCounts
      rw [List.filter_map]
      rfl
    have hterm : ∀ k ∈ (groupKeys pairStrLe transKey t).filter (fun k => decide (k.1 = reg)),
        (mkTransRow t (k, (groupOf transKey t k).length)).Pct
          = round2 (100 * ((groupOf transKey t k).length : ℚ) /
              ((t.filter (fun r => decide (r.Region = reg))).length : ℚ)) := by
      intro k hk
      have hk1 : k.1 = reg := of_decide_eq_true (List.mem_filter.mp hk).2
      show round2 (100 * ((groupOf transKey t k).length : ℚ) /
          (((((transCounts t).filter (fun kc2 => decide (kc2.1.1 = k.1))).map
            (fun kc2 => kc2.2)).sum : ℕ) : ℚ)) = _
      rw [hk1, trans_window_total t reg]
    have hsum1 : (((transmission_by_region t).filter
          (fun row => decide (row.Region = reg))).map (fun row => row.Pct)).sum
        = (((groupKeys pairStrLe transKey t).filter (fun k => decide (k.1 = reg))).map
            (fun k => round2 (100 * ((groupOf transKey t k).length : ℚ) /
              ((t.filter (fun r => decide (r.Region = reg))).length : ℚ)))).sum := by
      rw [List.Perm.sum_eq (List.Perm.map _ hperm)]
      rw [hfm, hcf, List.map_map, List.map_map]
      exact congrArg List.sum (List.map_congr_left (fun k hk => hterm k hk))
    have hlen : ((transmission_by_region t).filter
          (fun row => decide (row.Region = reg))).length
        = ((groupKeys pairStrLe transKey t).filter (fun k => decide (k.1 = reg))).length := by
      rw [hperm.length_eq, hfm, hcf, List.length_map, List.length_map]
    have hksum : (((groupKeys pairStrLe transKey t).filter
          (fun k => decide (k.1 = reg))).map
            (fun k => (groupOf transKey t k).length)).sum
        = (t.filter (fun r => decide (r.Region = reg))).length := by
      have h0 := trans_window_total t reg
      rw [hcf, List.map_map] at h0
      exact h0
    have hb := round2_shares_sum_bound
      (((groupKeys pairStrLe transKey t).filter (fun k => decide (k.1 = reg))).map
        (fun k => (groupOf transKey t k).length))
      ((t.filter (fun r => decide (r.Region = reg))).length) hn hksum
    rw [List.map_map, List.length_map] at hb
    rw [hsum1, hlen]
    exact hb
